import Mathlib

/-!
Verification of the provider-agnostic conversation/tool-call adapter of the
`zilo-dev-x-code` repository, shallowly embedded from
`packages/core/src/core/bedrockContentGenerator.ts` (request translation,
conversation repair, stream reassembly, response translation) and from the
spec's description of the retry executor (whose source file
`utils/retry.ts` is not part of the provided sources).
-/

namespace Zilo

/-- JSON values, standing in for the JavaScript values produced by
`JSON.parse` and consumed by `JSON.stringify`.  Numbers are modelled as
integers, which covers every value the adapter manipulates. -/
inductive Json where
  | null : Json
  | bool (b : Bool) : Json
  | num (n : Int) : Json
  | str (s : String) : Json
  | arr (xs : List Json) : Json
  | obj (kvs : List (String × Json)) : Json

/-- The empty JSON object `{}`. -/
def Json.emptyObj : Json := .obj []

/-- JavaScript truthiness of an optional string: `undefined`, `null` and the
empty string are falsy. -/
def truthy : Option String → Bool
  | none => false
  | some s => s ≠ ""

/-- JavaScript `a || b` on optional strings: the first truthy operand, else
the second operand. -/
def jsOr (a b : Option String) : Option String :=
  if truthy a then a else b

/-- JavaScript `a || ''` on an optional string. -/
def orEmpty : Option String → String
  | none => ""
  | some s => s

/-! ### A small executable JSON parser (model of `JSON.parse`)

The model first lexes the input into a token list, then parses the token
list with a fuel-driven token parser; `JSON.parse` is modelled as the
composition, returning `none` wherever `JSON.parse` would throw. -/

/-- A token of the JSON lexer: punctuation, or a complete scalar literal. -/
inductive JTok where
  | lbrace
  | rbrace
  | lbrack
  | rbrack
  | colon
  | comma
  | lit (v : Json)

/-- Decode a JSON string escape character: self-representing punctuation
escapes to itself, letter escapes to the named control character. -/
def escapeChar (e : Char) : Option Char :=
  if e = '"' ∨ e = '\\' ∨ e = '/' then some e
  else if e = 'n' then some '\n'
  else if e = 't' then some '\t'
  else if e = 'r' then some '\r'
  else none

/-- Lex the remainder of a JSON string literal (after the opening quote),
returning the string contents and the unconsumed input. -/
def lexString : List Char → Option (String × List Char)
  | [] => none
  | '"' :: cs => some ("", cs)
  | '\\' :: e :: cs =>
    (match escapeChar e with
      | none => none
      | some c =>
        match lexString cs with
        | none => none
        | some (s, rest) => some (String.mk (c :: s.data), rest))
  | c :: cs =>
    match lexString cs with
    | none => none
    | some (s, rest) => some (String.mk (c :: s.data), rest)

/-- Consume a run of decimal digits, accumulating their value. -/
def lexDigits (acc : Nat) : List Char → Nat × List Char
  | c :: cs =>
    if c.isDigit then lexDigits (acc * 10 + (c.toNat - '0'.toNat)) cs
    else (acc, c :: cs)
  | [] => (acc, [])

/-- Lex a natural number literal (at least one digit required). -/
def lexNat : List Char → Option (Nat × List Char)
  | c :: cs =>
    if c.isDigit then some (lexDigits (c.toNat - '0'.toNat) cs) else none
  | [] => none

/-- Lex a JSON document into tokens (fuel-driven; whitespace skipped,
keywords, numbers and strings turned into literal tokens). -/
def lexJson : Nat → List Char → Option (List JTok)
  | 0, _ => none
  | _, [] => some []
  | fuel + 1, '{' :: cs => (lexJson fuel cs).map fun ts => .lbrace :: ts
  | fuel + 1, '}' :: cs => (lexJson fuel cs).map fun ts => .rbrace :: ts
  | fuel + 1, '[' :: cs => (lexJson fuel cs).map fun ts => .lbrack :: ts
  | fuel + 1, ']' :: cs => (lexJson fuel cs).map fun ts => .rbrack :: ts
  | fuel + 1, ':' :: cs => (lexJson fuel cs).map fun ts => .colon :: ts
  | fuel + 1, ',' :: cs => (lexJson fuel cs).map fun ts => .comma :: ts
  | fuel + 1, 't' :: 'r' :: 'u' :: 'e' :: cs =>
    (lexJson fuel cs).map fun ts => .lit (.bool true) :: ts
  | fuel + 1, 'f' :: 'a' :: 'l' :: 's' :: 'e' :: cs =>
    (lexJson fuel cs).map fun ts => .lit (.bool false) :: ts
  | fuel + 1, 'n' :: 'u' :: 'l' :: 'l' :: cs =>
    (lexJson fuel cs).map fun ts => .lit .null :: ts
  | fuel + 1, '"' :: cs =>
    (match lexString cs with
      | none => none
      | some (s, rest) => (lexJson fuel rest).map fun ts => .lit (.str s) :: ts)
  | fuel + 1, '-' :: cs =>
    (match lexNat cs with
      | none => none
      | some (n, rest) =>
        (lexJson fuel rest).map fun ts => .lit (.num (-(n : Int))) :: ts)
  | fuel + 1, c :: cs =>
    if c = ' ' ∨ c = '\n' ∨ c = '\t' ∨ c = '\r' then lexJson fuel cs
    else if c.isDigit then
      match lexNat (c :: cs) with
      | none => none
      | some (n, rest) =>
        (lexJson fuel rest).map fun ts => .lit (.num (n : Int)) :: ts
    else none

mutual

/-- Parse one JSON value from a token list (fuel-driven). -/
def parseJVal : Nat → List JTok → Option (Json × List JTok)
  | 0, _ => none
  | fuel + 1, toks =>
    match toks with
    | .lit v :: rest => some (v, rest)
    | .lbrack :: .rbrack :: rest => some (.arr [], rest)
    | .lbrack :: rest =>
      (match parseJArr fuel rest with
        | none => none
        | some (xs, r) => some (.arr xs, r))
    | .lbrace :: .rbrace :: rest => some (.obj [], rest)
    | .lbrace :: rest =>
      (match parseJObj fuel rest with
        | none => none
        | some (ms, r) => some (.obj ms, r))
    | _ => none

/-- Parse one or more comma-separated array elements, then the closing
bracket. -/
def parseJArr : Nat → List JTok → Option (List Json × List JTok)
  | 0, _ => none
  | fuel + 1, toks =>
    match parseJVal fuel toks with
    | none => none
    | some (v, rest) =>
      match rest with
      | .comma :: rest2 =>
        (match parseJArr fuel rest2 with
          | none => none
          | some (vs, r) => some (v :: vs, r))
      | .rbrack :: rest2 => some ([v], rest2)
      | _ => none

/-- Parse one or more comma-separated object members, then the closing
brace. -/
def parseJObj : Nat → List JTok → Option (List (String × Json) × List JTok)
  | 0, _ => none
  | fuel + 1, toks =>
    match toks with
    | .lit (.str k) :: .colon :: rest =>
      (match parseJVal fuel rest with
        | none => none
        | some (v, rest2) =>
          match rest2 with
          | .comma :: rest3 =>
            (match parseJObj fuel rest3 with
              | none => none
              | some (ms, r) => some ((k, v) :: ms, r))
          | .rbrace :: rest3 => some ([(k, v)], rest3)
          | _ => none)
    | _ => none

end

/-- Model of JavaScript `JSON.parse`: `some` on success, `none` when the
string is not valid JSON (where `JSON.parse` throws). -/
def parseJson (s : String) : Option Json :=
  match lexJson (s.length + 1) s.data with
  | none => none
  | some toks =>
    match parseJVal (toks.length + 1) toks with
    | some (v, []) => some v
    | _ => none

/-! ### A small executable JSON serializer (model of `JSON.stringify`) -/

/-- Escape a string for inclusion in JSON output. -/
def escapeString (s : String) : String :=
  s.data.foldl (fun acc c =>
    acc ++ (if c = '"' then "\\\"" else if c = '\\' then "\\\\"
            else if c = '\n' then "\\n" else if c = '\t' then "\\t"
            else if c = '\r' then "\\r" else String.mk [c])) ""

mutual

/-- Model of JavaScript `JSON.stringify` on a JSON value. -/
def jsonStringify : Json → String
  | .null => "null"
  | .bool true => "true"
  | .bool false => "false"
  | .num n => toString n
  | .str s => "\"" ++ escapeString s ++ "\""
  | .arr xs => "[" ++ stringifyElems xs ++ "]"
  | .obj kvs => "\x7b" ++ stringifyMembers kvs ++ "\x7d"

/-- Serialize array elements, comma-separated. -/
def stringifyElems : List Json → String
  | [] => ""
  | [x] => jsonStringify x
  | x :: xs => jsonStringify x ++ "," ++ stringifyElems xs

/-- Serialize object members, comma-separated. -/
def stringifyMembers : List (String × Json) → String
  | [] => ""
  | [(k, v)] => "\"" ++ escapeString k ++ "\":" ++ jsonStringify v
  | (k, v) :: kvs =>
    "\"" ++ escapeString k ++ "\":" ++ jsonStringify v ++ "," ++ stringifyMembers kvs

end

/-! ### Internal conversation representation

The shapes of `@google/genai` `Content`/`Part` values as the adapter
consumes them: a part carries a text string, a function call, or a
function response; ids are optional strings (possibly absent on malformed
history). -/

/-- A content Part. `other` stands for any part kind the translator does not
recognise (it matches none of the `part.text` / `part.functionCall` /
`part.functionResponse` branches). -/
inductive GPart where
  | text (t : String)
  | functionCall (name : String) (args : Json) (id : Option String)
  | functionResponse (id : Option String) (response : Json)
  | other

/-- A conversation turn: a role tag and its ordered parts
(`content.parts || []` is modelled as the list itself). -/
structure Content where
  role : String
  parts : List GPart

/-! ### Bedrock wire request shapes -/

/-- One Bedrock content block, as pushed by `convertParts`:
`{ type, text?, id?, name?, input?, tool_use_id?, content? }`. -/
structure Block where
  type : String
  text : Option String := none
  id : Option String := none
  name : Option String := none
  input : Option Json := none
  tool_use_id : Option String := none
  content : Option String := none

/-- Block `{ type: 'text', text }`. -/
def textBlock (t : String) : Block := { type := "text", text := some t }

/-- Block `{ type: 'tool_use', id, name, input }`. -/
def toolUseBlock (id name : String) (input : Json) : Block :=
  { type := "tool_use", id := some id, name := some name, input := some input }

/-- Block `{ type: 'tool_result', tool_use_id, content: JSON.stringify(response) }`. -/
def toolResultBlock (tid : String) (response : Json) : Block :=
  { type := "tool_result", tool_use_id := some tid,
    content := some (jsonStringify response) }

/-- A Bedrock message content field: a bare string or an array of blocks. -/
inductive BContent where
  | str (s : String)
  | blocks (bs : List Block)

/-- A Bedrock message. -/
structure BedrockMessage where
  role : String
  content : BContent

/-! ### `convertParts` (bedrockContentGenerator.ts lines 725-796) -/

/-- The block-accumulating loop of `convertParts`: text parts become text
blocks; `functionCall` parts with a (truthy) id become `tool_use` blocks
preserving the id, and are skipped (`continue`) when the id is missing;
`functionResponse` parts with a (truthy) id become `tool_result` blocks only
when the id is in `toolUseIds` (when that set is supplied), and are skipped
otherwise. -/
def convertPartsList : List GPart → Option (Finset String) → List Block
  | [], _ => []
  | p :: ps, toolUseIds =>
    let rest := convertPartsList ps toolUseIds
    match p with
    | .text t => if truthy (some t) then textBlock t :: rest else rest
    | .functionCall name args id =>
      if truthy id then toolUseBlock (orEmpty id) name args :: rest else rest
    | .functionResponse id response =>
      if truthy id then
        (match toolUseIds with
          | some s =>
            if orEmpty id ∈ s then toolResultBlock (orEmpty id) response :: rest
            else rest
          | none => toolResultBlock (orEmpty id) response :: rest)
      else rest
    | .other => rest

/-- The single-text-part collapse applied when returning converted content:
a one-element list whose only block is a text block becomes a bare string. -/
def collapseBlocks (bs : List Block) : BContent :=
  match bs with
  | [b] => if b.type = "text" then .str (orEmpty b.text) else .blocks bs
  | _ => .blocks bs

/-- Function `convertParts`: the loop followed by the single-text collapse. -/
def convertParts (parts : List GPart) (toolUseIds : Option (Finset String)) :
    BContent :=
  collapseBlocks (convertPartsList parts toolUseIds)

/-! ### Orphaned tool-result detection (lines 468-499, 580-587) -/

/-- First pass: collect every (truthy) `functionCall.id` over all assistant /
model turns into the `toolUseIds` set. -/
def collectToolUseIds (contents : List Content) : Finset String :=
  contents.foldl (fun acc c =>
    if c.role = "assistant" ∨ c.role = "model" then
      c.parts.foldl (fun acc2 p =>
        match p with
        | .functionCall _ _ i => if truthy i then insert (orEmpty i) acc2 else acc2
        | _ => acc2) acc
    else acc) ∅

/-- State of the second pass: set of seen tool-result ids, and the running
count of orphaned occurrences. -/
structure OrphanScan where
  toolResultIds : Finset String
  orphanedToolResultCount : Nat

/-- Second pass: over user turns, record every (truthy) `functionResponse.id`
into `toolResultIds` and count each occurrence whose id is not in
`toolUseIds` as orphaned. -/
def scanToolResults (contents : List Content) (toolUseIds : Finset String) :
    OrphanScan :=
  contents.foldl (fun st c =>
    if c.role = "user" then
      c.parts.foldl (fun st2 p =>
        match p with
        | .functionResponse i _ =>
          if truthy i then
            { toolResultIds := insert (orEmpty i) st2.toolResultIds,
              orphanedToolResultCount :=
                if orEmpty i ∈ toolUseIds then st2.orphanedToolResultCount
                else st2.orphanedToolResultCount + 1 }
          else st2
        | _ => st2) st
    else st) ⟨∅, 0⟩

/-- The ratio `orphanedRatio = totalToolResults > 0 ? orphanedToolResultCount /
totalToolResults : 0`, with `totalToolResults = toolResultIds.size`. -/
def orphanedRatio (contents : List Content) : ℚ :=
  let sc := scanToolResults contents (collectToolUseIds contents)
  let totalToolResults := sc.toolResultIds.card
  if totalToolResults > 0 then
    (sc.orphanedToolResultCount : ℚ) / (totalToolResults : ℚ)
  else 0

/-- The flag `shouldStartFresh = orphanedToolResultCount >= 3 && orphanedRatio >= 0.8`
(`0.8` written as the exact rational 4/5). -/
def shouldStartFresh (contents : List Content) : Bool :=
  let sc := scanToolResults contents (collectToolUseIds contents)
  decide (3 ≤ sc.orphanedToolResultCount) && decide ((4 : ℚ) / 5 ≤ orphanedRatio contents)

/-! ### Message assembly (lines 636-702) -/

/-- The `validContent` filter: text and `tool_use` blocks are always kept;
`tool_result` blocks are kept only when `toolUseIds.has(tool_use_id || '')`;
any other block kind is kept. -/
def isValidBlock (toolUseIds : Finset String) (b : Block) : Bool :=
  if b.type = "text" then true
  else if b.type = "tool_use" then true
  else if b.type = "tool_result" then decide (orEmpty b.tool_use_id ∈ toolUseIds)
  else true

/-- The pipeline `validContent.map((part, index) => part.type === 'tool_use' ? index : -1)
.filter(index => index !== -1).pop()`: the index of the last `tool_use`
block, if any. -/
def lastToolUseIndex (bs : List Block) : Option Nat :=
  (bs.enum.filterMap fun p =>
    if p.2.type = "tool_use" then some p.1 else none).getLast?

/-- Role mapping: `content.role === 'model' ? 'assistant' : content.role`. -/
def mapRole (role : String) : String :=
  if role = "model" then "assistant" else role

/-- The loop body of `convertToBedrockRequest` for a user/assistant/model
turn: convert the parts; when the result is an array, drop invalid blocks,
skip the message entirely when nothing valid remains, and - when a
`tool_use` block is present - truncate to everything up to and including the
last `tool_use` block; finally collapse a single text block to a bare
string. -/
def messageFor (role : String) (parts : List GPart) (toolUseIds : Finset String) :
    Option BedrockMessage :=
  match convertParts parts (some toolUseIds) with
  | .str s => some ⟨mapRole role, .str s⟩
  | .blocks bc =>
    let validContent := bc.filter (isValidBlock toolUseIds)
    if validContent.length = 0 then none
    else
      match lastToolUseIndex validContent with
      | some l => some ⟨mapRole role, collapseBlocks (validContent.take (l + 1))⟩
      | none => some ⟨mapRole role, collapseBlocks validContent⟩

/-- The message-building pass of `convertToBedrockRequest`: system turns set
the system prompt (and produce no message); user/assistant/model turns
produce at most one message each via `messageFor`. -/
def buildMessages (contents : List Content) : List BedrockMessage :=
  let toolUseIds := collectToolUseIds contents
  contents.filterMap fun c =>
    if c.role = "system" then none
    else if c.role = "user" ∨ c.role = "assistant" ∨ c.role = "model" then
      messageFor c.role c.parts toolUseIds
    else none

/-! ### Finish reasons and usage metadata -/

/-- The internal finish-reason enumeration used by `mapStopReason`. -/
inductive FinishR where
  | stop
  | maxOutputTokens
  | safety
  | other
deriving DecidableEq

/-- Function `mapStopReason` (lines 845-861): falsy input maps to `stop`; `end_turn`,
`stop_sequence` and `tool_use` map to `stop`; `max_tokens` to
`maxOutputTokens`; `content_filtered` to `safety`; anything else to
`other`. -/
def mapStopReason (stopReason : Option String) : FinishR :=
  if ¬ truthy stopReason then .stop
  else
    match orEmpty stopReason with
    | "end_turn" => .stop
    | "stop_sequence" => .stop
    | "tool_use" => .stop
    | "max_tokens" => .maxOutputTokens
    | "content_filtered" => .safety
    | _ => .other

/-- Bedrock-reported usage: `{ input_tokens, output_tokens }`. -/
structure BUsage where
  input_tokens : Nat
  output_tokens : Nat
deriving DecidableEq

/-- Internal usage metadata: `{ promptTokenCount, candidatesTokenCount,
totalTokenCount }`. -/
structure UsageMetadata where
  promptTokenCount : Nat
  candidatesTokenCount : Nat
  totalTokenCount : Nat
deriving DecidableEq

/-- Usage propagation: `promptTokenCount := input_tokens`,
`candidatesTokenCount := output_tokens`, `totalTokenCount :=` their sum. -/
def mkUsageMetadata (u : BUsage) : UsageMetadata :=
  ⟨u.input_tokens, u.output_tokens, u.input_tokens + u.output_tokens⟩

/-! ### Internal response representation -/

/-- A part of the single candidate of a `GenerateContentResponse`: a text
part or a `functionCall` part (whose `args`/`id` fields mirror the optional
fields of the Bedrock content block that produced them). -/
inductive OutPart where
  | text (t : String)
  | functionCall (name : String) (args : Option Json) (id : Option String)

/-- The observable payload of one `GenerateContentResponse`: the parts of
its single candidate, the finish reason, and the optional usage metadata. -/
structure GenResult where
  parts : List OutPart
  finishReason : FinishR
  usageMetadata : Option UsageMetadata

/-! ### Response translator (`convertFromBedrockResponse`, lines 798-843) -/

/-- One content block of a complete (non-streamed) Bedrock response. -/
structure BRespContent where
  type : String
  text : Option String := none
  id : Option String := none
  name : Option String := none
  input : Option Json := none

/-- A complete Bedrock response (the fields the translator reads; the
`usage` field is required by the response type and read directly). -/
structure BedrockResponse where
  content : List BRespContent
  stop_reason : Option String
  usage : BUsage

/-- Function `convertFromBedrockResponse`: text blocks with truthy text become text
parts; `tool_use` blocks become `functionCall` parts preserving the
provider-assigned id; `usageMetadata` is always set from `response.usage`. -/
def convertFromBedrockResponse (response : BedrockResponse) : GenResult :=
  let parts := response.content.filterMap fun c =>
    if c.type = "text" ∧ truthy c.text then some (OutPart.text (orEmpty c.text))
    else if c.type = "tool_use" then
      some (OutPart.functionCall (orEmpty c.name) c.input c.id)
    else none
  { parts := parts,
    finishReason := mapStopReason response.stop_reason,
    usageMetadata := some (mkUsageMetadata response.usage) }

/-! ### Stream reassembler (`doGenerateContentStream`, lines 286-382) -/

/-- A parsed Bedrock stream chunk, by the branches the reassembler
distinguishes:
* `blockStartToolUse`: `content_block_start` whose `content_block.type` is
  `tool_use`, carrying its optional `id` and `name`;
* `blockDelta`: `content_block_delta`, carrying the optional `delta.text`,
  `delta.partial_json`, `delta.input` and `input_delta` fields;
* `blockStop`: `content_block_stop`;
* `messageStop`: `message_delta`, carrying the optional `delta.stop_reason`
  and the optional `message.usage`;
* `otherChunk`: any chunk matching none of the branches. -/
inductive BChunk where
  | blockStartToolUse (id name : Option String)
  | blockDelta (text partialJson inputF inputDelta : Option String)
  | blockStop
  | messageStop (stopReason : Option String) (usage : Option BUsage)
  | otherChunk

/-- The mutable `currentToolUse` record:
`{ id, name, input, inputBuffer? }`. -/
structure CurrentToolUse where
  id : String
  name : String
  input : Json
  inputBuffer : Option String

/-- The reassembler's loop state: `accumulatedText` and the single
`currentToolUse` slot (or `null`). -/
structure RState where
  accumulatedText : String
  currentToolUse : Option CurrentToolUse

/-- The initial loop state. -/
def RState.init : RState := ⟨"", none⟩

/-- One iteration of the stream loop: given the debug flag, the state and
the parsed chunk, produce the next state, the responses yielded by this
iteration, and the console lines logged by it. -/
def stepChunk (debugMode : Bool) (s : RState) (c : BChunk) :
    RState × List GenResult × List String :=
  match c with
  | .blockStartToolUse id name =>
    ({ s with
        currentToolUse := some ⟨orEmpty id, orEmpty name, Json.emptyObj, none⟩ },
      [],
      if debugMode then
        ["[BEDROCK-GEN] Found tool_use block: " ++ orEmpty name]
      else [])
  | .blockDelta text partialJson inputF inputDelta =>
    if truthy text then
      ({ s with accumulatedText := s.accumulatedText ++ orEmpty text },
        [⟨[.text (orEmpty text)], .stop, none⟩], [])
    else
      (match s.currentToolUse with
        | some tc =>
          let frag := jsOr (jsOr partialJson inputF) inputDelta
          if truthy frag then
            let tc' := { tc with
              inputBuffer := some (orEmpty tc.inputBuffer ++ orEmpty frag) }
            ({ s with currentToolUse := some tc' }, [], [])
          else (s, [], [])
        | none => (s, [], []))
  | .blockStop =>
    (match s.currentToolUse with
      | some tc =>
        let parsed : Json × List String :=
          if truthy tc.inputBuffer then
            match parseJson (orEmpty tc.inputBuffer) with
            | some v => (v, [])
            | none =>
              (Json.emptyObj,
                if debugMode then
                  ["[BEDROCK-GEN] Failed to parse tool input JSON: " ++
                    orEmpty tc.inputBuffer]
                else [])
          else (tc.input, [])
        ({ s with currentToolUse := none },
          [⟨[.functionCall tc.name (some parsed.1) (some tc.id)], .stop, none⟩],
          parsed.2 ++
            (if debugMode then
              ["[BEDROCK-GEN] Yielding tool call: " ++ tc.name]
            else []))
      | none => (s, [], []))
  | .messageStop stopReason usage =>
    if truthy stopReason then
      (s,
        [⟨(if s.accumulatedText ≠ "" then [.text s.accumulatedText] else []),
          mapStopReason stopReason,
          usage.map mkUsageMetadata⟩], [])
    else (s, [], [])
  | .otherChunk => (s, [], [])

/-- Run the stream loop from a state over a chunk list, concatenating the
yielded responses and the logged lines. -/
def runStreamFrom (debugMode : Bool) (s : RState) :
    List BChunk → List GenResult × List String
  | [] => ([], [])
  | c :: cs =>
    let (s', outs, logs) := stepChunk debugMode s c
    let (outs', logs') := runStreamFrom debugMode s' cs
    (outs ++ outs', logs ++ logs')

/-- Run the stream loop from the initial state. -/
def runStream (debugMode : Bool) (chunks : List BChunk) :
    List GenResult × List String :=
  runStreamFrom debugMode RState.init chunks

/-! ### Retry executor

Modelled from the spec: the retry executor's source (`retryWithBackoff` in
`packages/core/src/utils/retry.ts`) is not among the provided source files -
only its import and call site in `baseLlmClient.ts` are.  Per spec §4.5,
`execute(requestFn, isRetryable, maxAttempts, baseDelay)` retries only
transient failures with exponential backoff (a constant multiplier each
attempt) and a capped attempt count; non-retryable failures surface
immediately. -/

/-- Modelled from the spec: the classified outcome of one attempt of the
`requestFn` (success, classifier-confirmed transient failure, or a
non-retryable failure). -/
inductive AttemptResult where
  | success
  | transient
  | nonRetryable
deriving DecidableEq

/-- Modelled from the spec: the outcome of the retry executor - success
after `attempts` attempts, a fatal error after exhausting `attempts`
transient attempts, or an immediately surfaced non-retryable error. -/
inductive RetryOutcome where
  | ok (attempts : Nat)
  | fatalAfter (attempts : Nat)
  | surfaced (attempts : Nat)
deriving DecidableEq

/-- Modelled from the spec: attempts numbered `k, k+1, ...` with `remaining`
attempts left; a transient failure with attempts remaining retries,
otherwise the executor stops. -/
def retryExecAux (requestFn : Nat → AttemptResult) : Nat → Nat → RetryOutcome
  | _, 0 => .fatalAfter 0
  | k, remaining + 1 =>
    match requestFn k with
    | .success => .ok k
    | .nonRetryable => .surfaced k
    | .transient =>
      if remaining = 0 then .fatalAfter k
      else retryExecAux requestFn (k + 1) remaining

/-- Modelled from the spec: run the request function with at most
`maxAttempts` attempts, numbered from 1. -/
def retryExec (requestFn : Nat → AttemptResult) (maxAttempts : Nat) :
    RetryOutcome :=
  retryExecAux requestFn 1 maxAttempts

/-- Modelled from the spec: the delay before retry number `k` (counting from
0) under exponential backoff with base delay `baseDelay` and constant
multiplier `mult`. -/
def backoffDelay (baseDelay mult k : Nat) : Nat :=
  baseDelay * mult ^ k

/-- The number of attempts reported by a retry outcome. -/
def RetryOutcome.attempts : RetryOutcome → Nat
  | .ok k => k
  | .fatalAfter k => k
  | .surfaced k => k

/-! ### Spec-side definitions

These definitions follow the wording of the spec's claims (not the source);
the theorems below compare them against the source-side functions. -/

/-- Spec-side: the list of tool-call ids issued by assistant turns (each
`functionCall` part with a present, non-empty id, in order). -/
def issuedIdList (contents : List Content) : List String :=
  contents.flatMap fun c =>
    if c.role = "assistant" ∨ c.role = "model" then
      c.parts.filterMap fun p =>
        match p with
        | .functionCall _ _ i => if truthy i then some (orEmpty i) else none
        | _ => none
    else []

/-- Spec-side: the tool-result id occurrences across user turns (each
`functionResponse` part with a present, non-empty id, in order, with
repetitions). -/
def resultIdOccurrences (contents : List Content) : List String :=
  contents.flatMap fun c =>
    if c.role = "user" then
      c.parts.filterMap fun p =>
        match p with
        | .functionResponse i _ => if truthy i then some (orEmpty i) else none
        | _ => none
    else []

/-- Spec-side: the number of orphaned ToolResults - tool-result occurrences
whose id matches no tool-call id issued by any assistant turn. -/
def specOrphanCount (contents : List Content) : Nat :=
  (resultIdOccurrences contents).countP fun tid =>
    decide (tid ∉ issuedIdList contents)

/-- Spec-side: the number of distinct ToolResult ids. -/
def specDistinctResultCount (contents : List Content) : Nat :=
  (resultIdOccurrences contents).toFinset.card

/-- Spec-side, following C5's words: a Text part is sent unchanged as a text
block; a ToolCall part (with its id) is sent unchanged as a tool-invocation
block; a ToolResult part is converted into a provider tool-result block only
if its toolCallId is in the collected id set, and dropped otherwise; parts
with a missing/empty payload or id are degenerate and produce nothing. -/
def specConvertPart (toolUseIds : Finset String) : GPart → Option Block
  | .text t => if t ≠ "" then some (textBlock t) else none
  | .functionCall name args i =>
    if truthy i then some (toolUseBlock (orEmpty i) name args) else none
  | .functionResponse i response =>
    if truthy i ∧ orEmpty i ∈ toolUseIds then
      some (toolResultBlock (orEmpty i) response)
    else none
  | .other => none

/-- Spec-side: concatenation of a list of argument fragments. -/
def concatFrags : List String → String
  | [] => ""
  | f :: fs => f ++ concatFrags fs

/-- The evolution of the accumulation buffer over a list of fragment deltas
(a fragment that is the empty string is falsy and leaves the buffer
untouched). -/
def appendFrags (buf : Option String) : List String → Option String
  | [] => buf
  | f :: fs => appendFrags (if f ≠ "" then some (orEmpty buf ++ f) else buf) fs

/-- The tool_use index pipeline of `lastToolUseIndex`, generalized to an
arbitrary starting offset for reasoning. -/
def toolUseIdxsFrom (n : Nat) (bs : List Block) : List Nat :=
  (List.enumFrom n bs).filterMap fun p =>
    if p.2.type = "tool_use" then some p.1 else none

/-- A conversation whose user turn carries exactly 2 orphaned ToolResults
out of 2 total. -/
def twoOrphanConv : List Content :=
  [⟨"user", [.text "hello"]⟩,
   ⟨"user", [.functionResponse (some "orphan-1") .null,
             .functionResponse (some "orphan-2") .null]⟩]

/-- A conversation whose user turn carries exactly 3 orphaned ToolResults
out of 3 total (ratio 1.0). -/
def threeOrphanConv : List Content :=
  [⟨"user", [.text "hello"]⟩,
   ⟨"user", [.functionResponse (some "orphan-1") .null,
             .functionResponse (some "orphan-2") .null,
             .functionResponse (some "orphan-3") .null]⟩]

/-- The C5 scenario conversation: one genuine ToolCall with id `a`, a
matching ToolResult, and an orphaned ToolResult with id `orphan-9`. -/
def orphanScenarioConv : List Content :=
  [⟨"user", [.text "list files"]⟩,
   ⟨"model", [.functionCall "read" (Json.obj [("p", .str "x")]) (some "a")]⟩,
   ⟨"user", [.text "ok", .functionResponse (some "a") .null,
             .functionResponse (some "orphan-9") .null]⟩]

/-! ### Helper lemmas -/

lemma insert_fold_parts (parts : List GPart) (acc : Finset String) :
    parts.foldl (fun acc2 p =>
      match p with
      | .functionCall _ _ i => if truthy i then insert (orEmpty i) acc2 else acc2
      | _ => acc2) acc
    = acc ∪ (parts.filterMap fun p =>
        match p with
        | .functionCall _ _ i => if truthy i then some (orEmpty i) else none
        | _ => none).toFinset := by
  induction parts generalizing acc with
  | nil => simp
  | cons p ps ih =>
    cases p with
    | functionCall name args i =>
      by_cases h : truthy i
      · simp [List.foldl_cons, List.filterMap_cons, h, ih,
          List.toFinset_cons, Finset.union_insert, Finset.insert_union]
      · simp [List.foldl_cons, List.filterMap_cons, h, ih]
    | text t => simp only [List.foldl_cons, List.filterMap_cons, ih]
    | functionResponse i r => simp only [List.foldl_cons, List.filterMap_cons, ih]
    | other => simp only [List.foldl_cons, List.filterMap_cons, ih]

lemma collect_aux (contents : List Content) (acc : Finset String) :
    contents.foldl (fun acc c =>
      if c.role = "assistant" ∨ c.role = "model" then
        c.parts.foldl (fun acc2 p =>
          match p with
          | .functionCall _ _ i => if truthy i then insert (orEmpty i) acc2 else acc2
          | _ => acc2) acc
      else acc) acc
    = acc ∪ (issuedIdList contents).toFinset := by
  induction contents generalizing acc with
  | nil => simp [issuedIdList]
  | cons c cs ih =>
    rw [List.foldl_cons, ih]
    by_cases h : c.role = "assistant" ∨ c.role = "model"
    · rw [if_pos h, insert_fold_parts]
      simp [issuedIdList, h, List.toFinset_append, Finset.union_assoc]
    · rw [if_neg h]
      simp [issuedIdList, h]

lemma collectToolUseIds_eq (contents : List Content) :
    collectToolUseIds contents = (issuedIdList contents).toFinset := by
  rw [collectToolUseIds, collect_aux, Finset.empty_union]

lemma scan_fold_parts (parts : List GPart) (S : Finset String) (st : OrphanScan) :
    parts.foldl (fun st2 p =>
      match p with
      | .functionResponse i _ =>
        if truthy i then
          { toolResultIds := insert (orEmpty i) st2.toolResultIds,
            orphanedToolResultCount :=
              if orEmpty i ∈ S then st2.orphanedToolResultCount
              else st2.orphanedToolResultCount + 1 }
        else st2
      | _ => st2) st
    = ⟨st.toolResultIds ∪ (parts.filterMap fun p =>
          match p with
          | .functionResponse i _ => if truthy i then some (orEmpty i) else none
          | _ => none).toFinset,
       st.orphanedToolResultCount + (parts.filterMap fun p =>
          match p with
          | .functionResponse i _ => if truthy i then some (orEmpty i) else none
          | _ => none).countP fun tid => decide (tid ∉ S)⟩ := by
  induction parts generalizing st with
  | nil => simp
  | cons p ps ih =>
    cases p with
    | functionResponse i r =>
      by_cases h : truthy i
      · by_cases hm : orEmpty i ∈ S
        · simp [h, hm, ih, List.countP_cons, List.toFinset_cons,
            Finset.union_insert, Finset.insert_union]
        · simp [h, hm, ih, List.countP_cons, List.toFinset_cons,
            Finset.union_insert, Finset.insert_union]
          omega
      · simp [h, ih]
    | text t => simp [ih]
    | functionCall n a i => simp [ih]
    | other => simp [ih]

lemma scan_aux (contents : List Content) (S : Finset String) (st : OrphanScan) :
    contents.foldl (fun st c =>
      if c.role = "user" then
        c.parts.foldl (fun st2 p =>
          match p with
          | .functionResponse i _ =>
            if truthy i then
              { toolResultIds := insert (orEmpty i) st2.toolResultIds,
                orphanedToolResultCount :=
                  if orEmpty i ∈ S then st2.orphanedToolResultCount
                  else st2.orphanedToolResultCount + 1 }
            else st2
          | _ => st2) st
      else st) st
    = ⟨st.toolResultIds ∪ (resultIdOccurrences contents).toFinset,
       st.orphanedToolResultCount + (resultIdOccurrences contents).countP
         fun tid => decide (tid ∉ S)⟩ := by
  induction contents generalizing st with
  | nil => simp [resultIdOccurrences]
  | cons c cs ih =>
    rw [List.foldl_cons]
    by_cases h : c.role = "user"
    · rw [if_pos h, scan_fold_parts, ih]
      simp [resultIdOccurrences, h, List.toFinset_append, Finset.union_assoc,
        List.countP_append]
      omega
    · rw [if_neg h, ih]
      simp [resultIdOccurrences, h]

lemma scanToolResults_eq (contents : List Content) (S : Finset String) :
    scanToolResults contents S =
      ⟨(resultIdOccurrences contents).toFinset,
       (resultIdOccurrences contents).countP fun tid => decide (tid ∉ S)⟩ := by
  rw [scanToolResults, scan_aux]
  simp

lemma shouldStartFresh_iff (contents : List Content) :
    shouldStartFresh contents = true ↔
      3 ≤ specOrphanCount contents ∧
        (4 : ℚ) / 5 ≤
          (specOrphanCount contents : ℚ) / (specDistinctResultCount contents : ℚ) := by
  have hcount : (scanToolResults contents (collectToolUseIds contents)).orphanedToolResultCount
      = specOrphanCount contents := by
    rw [scanToolResults_eq, specOrphanCount]
    apply List.countP_congr
    intro x _
    simp [collectToolUseIds_eq, List.mem_toFinset]
  have hcard : (scanToolResults contents (collectToolUseIds contents)).toolResultIds.card
      = specDistinctResultCount contents := by
    rw [scanToolResults_eq, specDistinctResultCount]
  rw [shouldStartFresh, orphanedRatio]
  simp only [hcount, hcard, Bool.and_eq_true, decide_eq_true_eq]
  by_cases ht : 0 < specDistinctResultCount contents
  · simp [ht]
  · have h0 : specDistinctResultCount contents = 0 := by omega
    simp [ht, h0]

lemma append_ne_empty_left (f g : String) (hf : f ≠ "") : f ++ g ≠ "" := by
  intro h
  have hl : (f ++ g).length = 0 := by rw [h]; rfl
  rw [String.length_append] at hl
  have : f.length = 0 := by omega
  apply hf
  cases f with
  | mk data =>
    cases data with
    | nil => rfl
    | cons c cs => simp [String.length] at this

lemma appendFrags_eq (fs : List String) (buf : Option String) :
    appendFrags buf fs =
      if concatFrags fs = "" then buf
      else some (orEmpty buf ++ concatFrags fs) := by
  induction fs generalizing buf with
  | nil => simp [appendFrags, concatFrags]
  | cons f fs ih =>
    by_cases hf : f = ""
    · subst hf
      simp [appendFrags, concatFrags, String.empty_append, ih]
    · rw [appendFrags, if_pos hf, ih]
      have hne : f ++ concatFrags fs ≠ "" := append_ne_empty_left _ _ hf
      rw [concatFrags, if_neg hne]
      by_cases hcf : concatFrags fs = ""
      · rw [if_pos hcf, hcf, String.append_empty]
      · rw [if_neg hcf]
        simp [orEmpty, String.append_assoc]

lemma runStreamFrom_frag (d : Bool) (fs : List String) (rest : List BChunk)
    (acc id name : String) (inp : Json) (buf : Option String) :
    runStreamFrom d ⟨acc, some ⟨id, name, inp, buf⟩⟩
      ((fs.map fun f => BChunk.blockDelta none (some f) none none) ++ rest)
    = runStreamFrom d ⟨acc, some ⟨id, name, inp, appendFrags buf fs⟩⟩ rest := by
  induction fs generalizing buf with
  | nil => simp [appendFrags]
  | cons f fs ih =>
    by_cases hf : f = ""
    · subst hf
      simp only [List.map_cons, List.cons_append, runStreamFrom, stepChunk,
        truthy, jsOr, appendFrags]
      simp [ih]
    · simp only [List.map_cons, List.cons_append, runStreamFrom, stepChunk,
        truthy, jsOr, appendFrags]
      simp [hf, orEmpty, ih]

lemma collapseBlocks_blocks (bs bc : List Block)
    (h : collapseBlocks bs = .blocks bc) : bc = bs := by
  match bs with
  | [] => cases h; rfl
  | [b] =>
    rw [collapseBlocks] at h
    by_cases hb : b.type = "text"
    · rw [if_pos hb] at h; cases h
    · rw [if_neg hb] at h; cases h; rfl
  | b1 :: b2 :: rest => cases h; rfl

lemma collapseBlocks_str (bs : List Block) (s : String)
    (h : collapseBlocks bs = .str s) : ∃ b, bs = [b] ∧ b.type = "text" := by
  match bs with
  | [] => cases h
  | [b] =>
    rw [collapseBlocks] at h
    by_cases hb : b.type = "text"
    · exact ⟨b, rfl, hb⟩
    · rw [if_neg hb] at h; cases h
  | b1 :: b2 :: rest => cases h

lemma lastToolUseIndex_eq_from (bs : List Block) :
    lastToolUseIndex bs = (toolUseIdxsFrom 0 bs).getLast? := rfl

lemma toolUseIdxsFrom_cons (n : Nat) (b : Block) (bs : List Block) :
    toolUseIdxsFrom n (b :: bs)
      = (if b.type = "tool_use" then [n] else []) ++ toolUseIdxsFrom (n + 1) bs := by
  by_cases hb : b.type = "tool_use"
  · simp [toolUseIdxsFrom, List.enumFrom_cons, List.filterMap_cons, hb]
  · simp [toolUseIdxsFrom, List.enumFrom_cons, List.filterMap_cons, hb]

lemma toolUseIdxsFrom_eq_nil (n : Nat) (bs : List Block) :
    toolUseIdxsFrom n bs = [] ↔ ∀ b ∈ bs, b.type ≠ "tool_use" := by
  induction bs generalizing n with
  | nil => simp [toolUseIdxsFrom]
  | cons b bs ih =>
    rw [toolUseIdxsFrom_cons]
    by_cases hb : b.type = "tool_use"
    · simp [hb]
    · simp [hb, ih]

lemma lastIdx_split (bs : List Block) :
    ∀ (n l : Nat), (toolUseIdxsFrom n bs).getLast? = some l →
    ∃ kept b dropped, bs = kept ++ b :: dropped ∧ n + kept.length = l ∧
      b.type = "tool_use" ∧ ∀ x ∈ dropped, x.type ≠ "tool_use" := by
  induction bs with
  | nil => intro n l h; simp [toolUseIdxsFrom] at h
  | cons b bs ih =>
    intro n l h
    rw [toolUseIdxsFrom_cons] at h
    by_cases hnil : toolUseIdxsFrom (n + 1) bs = []
    · rw [hnil, List.append_nil] at h
      by_cases hb : b.type = "tool_use"
      · rw [if_pos hb] at h
        have hl : l = n := by
          simp at h
          omega
        exact ⟨[], b, bs, by simp, by simp [hl], hb,
          (toolUseIdxsFrom_eq_nil _ _).mp hnil⟩
      · rw [if_neg hb] at h
        cases h
    · rw [List.getLast?_append_of_ne_nil _ hnil] at h
      rcases ih (n + 1) l h with ⟨kept, b', dropped, heq, hlen, hb', hdrop⟩
      refine ⟨b :: kept, b', dropped, by rw [heq]; rfl, ?_, hb', hdrop⟩
      simp only [List.length_cons]
      omega

lemma retryExecAux_all_transient (requestFn : Nat → AttemptResult)
    (hall : ∀ k, requestFn k = .transient) :
    ∀ (r k : Nat), retryExecAux requestFn k (r + 1) = .fatalAfter (k + r) := by
  intro r
  induction r with
  | zero => intro k; simp [retryExecAux, hall]
  | succ r ih =>
    intro k
    rw [retryExecAux, hall]
    simp only [Nat.succ_ne_zero, if_false]
    rw [ih (k + 1)]
    congr 1
    omega

lemma retryExecAux_success_at (requestFn : Nat → AttemptResult) (K : Nat) :
    ∀ (r k : Nat), k ≤ K → K < k + r →
    (∀ j, k ≤ j → j < K → requestFn j = .transient) →
    requestFn K = .success →
    retryExecAux requestFn k r = .ok K := by
  intro r
  induction r with
  | zero => intro k h1 h2 _ _; omega
  | succ r ih =>
    intro k h1 h2 hbefore hK
    by_cases hk : k = K
    · subst hk
      rw [retryExecAux, hK]
    · have hklt : k < K := by omega
      rw [retryExecAux, hbefore k (le_refl k) hklt]
      have hr : r ≠ 0 := by omega
      rw [if_neg hr]
      exact ih (k + 1) (by omega) (by omega)
        (fun j hj1 hj2 => hbefore j (by omega) hj2) hK

lemma retryExecAux_attempts_le (requestFn : Nat → AttemptResult) :
    ∀ (r k : Nat), 1 ≤ k → (retryExecAux requestFn k r).attempts ≤ k + r - 1 := by
  intro r
  induction r with
  | zero => intro k hk; simp [retryExecAux, RetryOutcome.attempts]
  | succ r ih =>
    intro k hk
    rw [retryExecAux]
    cases hfk : requestFn k with
    | success => simp [RetryOutcome.attempts]
    | nonRetryable => simp [RetryOutcome.attempts]
    | transient =>
      dsimp only
      by_cases hr : r = 0
      · subst hr
        simp [RetryOutcome.attempts]
      · rw [if_neg hr]
        have := ih (k + 1) (by omega)
        omega

/-! ### Claim theorems -/

/-- C1: the Conversation Repairer signals `discardHistory = true` exactly
when the number of orphaned ToolResults is at least 3 and the ratio of
orphaned ToolResults to total distinct ToolResult ids is at least 0.8
(written as the exact rational 4/5); in particular, with exactly 2 orphaned
ToolResults out of 2 total it signals false, and with 3 orphaned out of 3
total (ratio 1.0) it signals true. -/
theorem repairer_discard_threshold :
    (∀ contents : List Content,
      shouldStartFresh contents = true ↔
        3 ≤ specOrphanCount contents ∧
          (4 : ℚ) / 5 ≤
            (specOrphanCount contents : ℚ) / (specDistinctResultCount contents : ℚ)) ∧
    shouldStartFresh twoOrphanConv = false ∧
    shouldStartFresh threeOrphanConv = true := by
  refine ⟨shouldStartFresh_iff, ?_, ?_⟩
  · cases hb : shouldStartFresh twoOrphanConv with
    | false => rfl
    | true =>
      rcases (shouldStartFresh_iff twoOrphanConv).mp hb with ⟨h3, _⟩
      have : specOrphanCount twoOrphanConv = 2 := by decide
      omega
  · apply (shouldStartFresh_iff threeOrphanConv).mpr
    have h1 : specOrphanCount threeOrphanConv = 3 := by decide
    have h2 : specDistinctResultCount threeOrphanConv = 3 := by decide
    rw [h1, h2]
    norm_num

/-- Witness for C1: the threshold theorem applied at the concrete 3-of-3
conversation. -/
theorem repairer_discard_threshold_witness :
    shouldStartFresh threeOrphanConv = true :=
  (repairer_discard_threshold.1 threeOrphanConv).mpr
    ⟨by decide, by
      have h1 : specOrphanCount threeOrphanConv = 3 := by decide
      have h2 : specDistinctResultCount threeOrphanConv = 3 := by decide
      rw [h1, h2]
      norm_num⟩

/-- C2: for every JSON document and every way of splitting it into N ≥ 1
fragments delivered as argument deltas between a matching tool-call start
and stop, the reassembled `ToolCall.arguments` equals the result of parsing
the whole document directly. -/
theorem stream_reassembly_deterministic (id name : String) (fs : List String)
    (doc : String) (v : Json) (hfs : fs ≠ []) (hjoin : concatFrags fs = doc)
    (hdoc : parseJson doc = some v) :
    runStream false
      (BChunk.blockStartToolUse (some id) (some name) ::
        ((fs.map fun f => BChunk.blockDelta none (some f) none none) ++
          [BChunk.blockStop]))
    = ([⟨[.functionCall name (some v) (some id)], .stop, none⟩], []) := by
  have hdocne : doc ≠ "" := by
    intro h
    rw [h] at hdoc
    rw [show parseJson "" = none from rfl] at hdoc
    cases hdoc
  rw [runStream, runStreamFrom]
  simp only [stepChunk]
  rw [runStreamFrom_frag]
  rw [appendFrags_eq, hjoin, if_neg hdocne]
  simp only [runStreamFrom, stepChunk, orEmpty, truthy, String.empty_append]
  rw [if_pos (by simpa using hdocne)]
  simp [hdoc, runStreamFrom]

/-- Witness for C2: the spec's scenario - `list_directory` arguments
streamed as two fragments reassemble to the parse of the whole document. -/
theorem stream_reassembly_deterministic_witness :
    runStream false
      (BChunk.blockStartToolUse (some "t1") (some "list_directory") ::
        ((["\x7b\"path\"", ":\"/tmp\"\x7d"].map
          fun f => BChunk.blockDelta none (some f) none none) ++
          [BChunk.blockStop]))
    = ([⟨[.functionCall "list_directory"
          (some (Json.obj [("path", Json.str "/tmp")])) (some "t1")],
        .stop, none⟩], []) :=
  stream_reassembly_deterministic "t1" "list_directory" _
    "\x7b\"path\":\"/tmp\"\x7d" _ (by decide) rfl rfl

/-- Counterexample for C3: with two interleaved tool-call starts, the
reassembler does not keep one buffer per id - the second start overwrites
the first accumulation, so the first id's ToolCall is never emitted. -/
theorem interleaved_tool_calls_lost :
    runStream false
      [.blockStartToolUse (some "t1") (some "A"),
       .blockDelta none (some "\x7b\"x\":1\x7d") none none,
       .blockStartToolUse (some "t2") (some "B"),
       .blockStop, .blockStop]
    = ([⟨[.functionCall "B" (some (Json.obj [])) (some "t2")], .stop, none⟩], []) ∧
    ∀ out ∈ (runStream false
      [.blockStartToolUse (some "t1") (some "A"),
       .blockDelta none (some "\x7b\"x\":1\x7d") none none,
       .blockStartToolUse (some "t2") (some "B"),
       .blockStop, .blockStop]).1,
      ∀ part ∈ out.parts, ∀ args, part ≠ .functionCall "A" args (some "t1") := by
  constructor
  · rfl
  · intro out hout part hpart args
    rw [show (runStream false
      [.blockStartToolUse (some "t1") (some "A"),
       .blockDelta none (some "\x7b\"x\":1\x7d") none none,
       .blockStartToolUse (some "t2") (some "B"),
       .blockStop, .blockStop]).1
      = [⟨[.functionCall "B" (some (Json.obj [])) (some "t2")], .stop, none⟩]
      from rfl] at hout
    simp at hout
    subst hout
    simp at hpart
    subst hpart
    intro hcontra
    injection hcontra with h1 h2 h3
    exact absurd h1 (by decide)

/-- C3 amended: the Stream Reassembler maintains a single accumulation
buffer for the currently open tool call (not one per id); a new
ToolCallStart discards any previous open accumulation, and fragments are
appended to whichever tool call is currently open, so only the most
recently started id's ToolCall is emitted. -/
theorem single_buffer_reassembly (id1 name1 id2 name2 : String)
    (fs1 fs2 : List String) (v : Json)
    (h : parseJson (concatFrags fs2) = some v) :
    runStream false
      (BChunk.blockStartToolUse (some id1) (some name1) ::
        ((fs1.map fun f => BChunk.blockDelta none (some f) none none) ++
          (BChunk.blockStartToolUse (some id2) (some name2) ::
            ((fs2.map fun f => BChunk.blockDelta none (some f) none none) ++
              [BChunk.blockStop]))))
    = ([⟨[.functionCall name2 (some v) (some id2)], .stop, none⟩], []) := by
  have hne : concatFrags fs2 ≠ "" := by
    intro hc
    rw [hc] at h
    rw [show parseJson "" = none from rfl] at h
    cases h
  rw [runStream, runStreamFrom]
  simp only [stepChunk]
  rw [runStreamFrom_frag]
  rw [runStreamFrom]
  simp only [stepChunk]
  rw [runStreamFrom_frag]
  rw [appendFrags_eq, if_neg hne]
  simp only [runStreamFrom, stepChunk, orEmpty, truthy, String.empty_append]
  rw [if_pos (by simpa using hne)]
  simp [h, runStreamFrom]

/-- Witness for C3's amended theorem at concrete interleaved ids. -/
theorem single_buffer_reassembly_witness :
    runStream false
      (BChunk.blockStartToolUse (some "t1") (some "A") ::
        ((["\x7b\"x\":1\x7d"].map fun f => BChunk.blockDelta none (some f) none none) ++
          (BChunk.blockStartToolUse (some "t2") (some "B") ::
            ((["\x7b\"y\":2\x7d"].map fun f => BChunk.blockDelta none (some f) none none) ++
              [BChunk.blockStop]))))
    = ([⟨[.functionCall "B" (some (Json.obj [("y", Json.num 2)])) (some "t2")],
        .stop, none⟩], []) :=
  single_buffer_reassembly "t1" "A" "t2" "B" ["\x7b\"x\":1\x7d"] ["\x7b\"y\":2\x7d"] _ rfl

/-- Counterexample for C4: with debug mode off (the default), concatenated
fragments that fail to parse at stop produce a ToolCall with empty-object
arguments and the console log is empty - no warning is surfaced to the
caller anywhere. -/
theorem unparsable_arguments_no_warning_surfaced :
    runStream false
      [.blockStartToolUse (some "t1") (some "f"),
       .blockDelta none (some "\x7bbad") none none,
       .blockStop]
    = ([⟨[.functionCall "f" (some (Json.obj [])) (some "t1")], .stop, none⟩],
       ([] : List String)) := rfl

/-- C4 amended: if the concatenated fragments fail to parse as JSON when the
tool call ends, the ToolCall's arguments are set to the empty object and the
completed ToolCall (with its original id and name) is still emitted without
throwing; the stream is not aborted - subsequent events are processed from
the continued state.  A warning is only written to the debug console in
debug mode, not surfaced to the caller. -/
theorem unparsable_arguments_degrade_to_empty (acc id name : String) (inp : Json)
    (buf : String) (rest : List BChunk) (hbuf : buf ≠ "")
    (hparse : parseJson buf = none) :
    runStreamFrom false ⟨acc, some ⟨id, name, inp, some buf⟩⟩
      (BChunk.blockStop :: rest)
    = ((⟨[.functionCall name (some Json.emptyObj) (some id)], .stop, none⟩ :
          GenResult) :: (runStreamFrom false ⟨acc, none⟩ rest).1,
       (runStreamFrom false ⟨acc, none⟩ rest).2) := by
  simp [runStreamFrom, stepChunk, truthy, orEmpty, hbuf, hparse]

/-- Witness for C4's amended theorem at a concrete unparsable buffer. -/
theorem unparsable_arguments_degrade_to_empty_witness :
    runStreamFrom false ⟨"", some ⟨"t1", "f", Json.emptyObj, some "\x7bbad"⟩⟩
      [BChunk.blockStop]
    = ([⟨[.functionCall "f" (some Json.emptyObj) (some "t1")], .stop, none⟩],
       []) := by
  rw [unparsable_arguments_degrade_to_empty "" "t1" "f" Json.emptyObj "\x7bbad" []
    (by decide) rfl]
  rfl

/-- C5: the Request Translator converts a ToolResult part into a provider
tool-result block only if its id is in the collected tool-call id set
(other parts converted unchanged, per `specConvertPart`); the orphan-9
scenario sends every other valid part while omitting the orphan entirely;
and every tool_result block in any built request references an id issued by
some assistant turn of the Conversation. -/
theorem toolresult_only_if_matching_toolcall :
    (∀ (parts : List GPart) (ids : Finset String),
      convertPartsList parts (some ids) = parts.filterMap (specConvertPart ids)) ∧
    buildMessages orphanScenarioConv =
      [⟨"user", .str "list files"⟩,
       ⟨"assistant", .blocks [toolUseBlock "a" "read" (Json.obj [("p", .str "x")])]⟩,
       ⟨"user", .blocks [textBlock "ok", toolResultBlock "a" Json.null]⟩] ∧
    (∀ (contents : List Content) (m : BedrockMessage) (bs : List Block)
        (b : Block), m ∈ buildMessages contents → m.content = .blocks bs →
      b ∈ bs → b.type = "tool_result" →
      orEmpty b.tool_use_id ∈ issuedIdList contents) := by
  refine ⟨?_, rfl, ?_⟩
  · intro parts ids
    induction parts with
    | nil => rfl
    | cons p ps ih =>
      cases p with
      | text t =>
        by_cases h : t = ""
        · simp [convertPartsList, specConvertPart, truthy, h, ih]
        · simp [convertPartsList, specConvertPart, truthy, h, ih]
      | functionCall name args i =>
        by_cases h : truthy i
        · simp [convertPartsList, specConvertPart, h, ih]
        · simp [convertPartsList, specConvertPart, h, ih]
      | functionResponse i r =>
        by_cases h : truthy i
        · by_cases hm : orEmpty i ∈ ids
          · simp [convertPartsList, specConvertPart, h, hm, ih]
          · simp [convertPartsList, specConvertPart, h, hm, ih]
        · simp [convertPartsList, specConvertPart, h, ih]
      | other => simp [convertPartsList, specConvertPart, ih]
  · intro contents m bs b hm hc hb htype
    rw [buildMessages] at hm
    rcases List.mem_filterMap.mp hm with ⟨c, hcmem, hsome⟩
    by_cases hsys : c.role = "system"
    · rw [if_pos hsys] at hsome; cases hsome
    rw [if_neg hsys] at hsome
    by_cases hrole : c.role = "user" ∨ c.role = "assistant" ∨ c.role = "model"
    swap
    · rw [if_neg hrole] at hsome; cases hsome
    rw [if_pos hrole] at hsome
    rw [messageFor] at hsome
    rcases hcv : convertParts c.parts (some (collectToolUseIds contents)) with s | bc
    · rw [hcv] at hsome
      cases hsome.symm
      cases hc
    · rw [hcv] at hsome
      dsimp only at hsome
      by_cases hlen : (bc.filter (isValidBlock (collectToolUseIds contents))).length = 0
      · rw [if_pos hlen] at hsome
        cases hsome
      rw [if_neg hlen] at hsome
      have hbmem : b ∈ bc.filter (isValidBlock (collectToolUseIds contents)) := by
        rcases hlast : lastToolUseIndex
            (bc.filter (isValidBlock (collectToolUseIds contents))) with _ | l
        · rw [hlast] at hsome
          cases hsome.symm
          rcases hcb : collapseBlocks
              (bc.filter (isValidBlock (collectToolUseIds contents))) with s' | bs'
          · rw [hcb] at hc; cases hc
          · rw [hcb] at hc
            cases hc
            have := collapseBlocks_blocks _ _ hcb
            rw [this] at hb
            exact hb
        · rw [hlast] at hsome
          cases hsome.symm
          rcases hcb : collapseBlocks
              ((bc.filter (isValidBlock (collectToolUseIds contents))).take (l + 1))
              with s' | bs'
          · rw [hcb] at hc; cases hc
          · rw [hcb] at hc
            cases hc
            have := collapseBlocks_blocks _ _ hcb
            rw [this] at hb
            exact List.take_subset _ _ hb
      have hvalid : isValidBlock (collectToolUseIds contents) b = true :=
        List.of_mem_filter hbmem
      rw [isValidBlock] at hvalid
      rw [if_neg (by rw [htype]; decide), if_neg (by rw [htype]; decide),
        if_pos htype] at hvalid
      have : orEmpty b.tool_use_id ∈ collectToolUseIds contents :=
        of_decide_eq_true hvalid
      rw [collectToolUseIds_eq] at this
      exact List.mem_toFinset.mp this

/-- Witness for C5: in the orphan-9 scenario, the surviving tool_result
block's id is indeed among the issued tool-call ids. -/
theorem toolresult_only_if_matching_toolcall_witness :
    orEmpty (toolResultBlock "a" Json.null).tool_use_id
      ∈ issuedIdList orphanScenarioConv :=
  toolresult_only_if_matching_toolcall.2.2 orphanScenarioConv
    ⟨"user", .blocks [textBlock "ok", toolResultBlock "a" Json.null]⟩
    [textBlock "ok", toolResultBlock "a" Json.null]
    (toolResultBlock "a" Json.null)
    (by rw [show buildMessages orphanScenarioConv =
        [⟨"user", .str "list files"⟩,
         ⟨"assistant", .blocks [toolUseBlock "a" "read" (Json.obj [("p", .str "x")])]⟩,
         ⟨"user", .blocks [textBlock "ok", toolResultBlock "a" Json.null]⟩] from rfl]
        exact List.mem_cons_of_mem _ (List.mem_cons_of_mem _ (List.mem_cons_self _ _)))
    rfl
    (List.mem_cons_of_mem _ (List.mem_cons_self _ _))
    rfl

/-- Counterexample for C6: a ToolCall part with no id is silently dropped by
`convertParts` - the translator is total, returns empty content for it, and
raises no error. -/
theorem toolcall_missing_id_silently_dropped :
    convertPartsList [GPart.functionCall "f" (Json.obj []) none]
      (some (∅ : Finset String)) = [] ∧
    convertParts [GPart.functionCall "f" (Json.obj []) none]
      (some (∅ : Finset String)) = .blocks [] :=
  ⟨rfl, rfl⟩

/-- C6 amended: every ToolCall part with a present, non-empty id is
converted preserving that id verbatim (the translator never generates an
id); a ToolCall part missing its id is silently skipped by the translator -
not converted, not repaired and not an error. -/
theorem toolcall_id_preserved_verbatim :
    (∀ (name : String) (args : Json) (i : String) (rest : List GPart)
        (ids : Option (Finset String)), i ≠ "" →
      convertPartsList (.functionCall name args (some i) :: rest) ids
        = toolUseBlock i name args :: convertPartsList rest ids) ∧
    (∀ (name : String) (args : Json) (rest : List GPart)
        (ids : Option (Finset String)),
      convertPartsList (.functionCall name args none :: rest) ids
        = convertPartsList rest ids) := by
  constructor
  · intro name args i rest ids hi
    simp [convertPartsList, truthy, orEmpty, hi]
  · intro name args rest ids
    simp [convertPartsList, truthy]

/-- Witness for C6's amended theorem at a concrete id. -/
theorem toolcall_id_preserved_verbatim_witness :
    convertPartsList [GPart.functionCall "read" Json.null (some "call-77")]
      (some (∅ : Finset String))
      = [toolUseBlock "call-77" "read" Json.null] := by
  rw [toolcall_id_preserved_verbatim.1 "read" Json.null "call-77" []
    (some ∅) (by decide)]
  rfl

/-- Counterexample for C7: the final response emitted at the terminal
`message_delta` repeats the whole accumulated text (already streamed as the
first chunk), and the tool call `t9` still accumulating at that point is
silently discarded - no force-closed ToolCall and no truncation flag. -/
theorem final_turn_repeats_text_and_drops_open_tool_call :
    runStream false
      [.blockDelta (some "hi") none none none,
       .blockStartToolUse (some "t9") (some "g"),
       .blockDelta none (some "\x7b\"a\"") none none,
       .messageStop (some "end_turn") (some ⟨5, 7⟩)]
    = ([⟨[.text "hi"], .stop, none⟩,
        ⟨[.text "hi"], .stop, some ⟨5, 7, 12⟩⟩], []) := rfl

/-- C7 amended: on the terminal `message_delta` the reassembler emits one
final response carrying the mapped terminal reason, the usage metadata when
present, and the full accumulated text (repeating already-streamed
content); any tool call still accumulating is left in the dropped state and
never emitted. -/
theorem message_end_emits_accumulated_text (acc : String)
    (cur : Option CurrentToolUse) (sr : String) (usage : Option BUsage)
    (hsr : sr ≠ "") :
    runStreamFrom false ⟨acc, cur⟩ [.messageStop (some sr) usage]
    = ([⟨(if acc ≠ "" then [.text acc] else []), mapStopReason (some sr),
        usage.map mkUsageMetadata⟩], []) := by
  simp [runStreamFrom, stepChunk, truthy, hsr]

/-- Witness for C7's amended theorem with an open tool call at the end of
the stream. -/
theorem message_end_emits_accumulated_text_witness :
    runStreamFrom false ⟨"hello", some ⟨"t1", "f", Json.emptyObj, none⟩⟩
      [.messageStop (some "end_turn") none]
    = ([⟨[.text "hello"], .stop, none⟩], []) := by
  rw [message_end_emits_accumulated_text "hello"
    (some ⟨"t1", "f", Json.emptyObj, none⟩) "end_turn" none (by decide)]
  rfl

/-- Counterexample for C8: a streamed terminal chunk with no usage yields a
final response whose `usageMetadata` is absent - not zero-defaulted. -/
theorem missing_usage_not_zero_defaulted :
    runStream false [.messageStop (some "end_turn") none]
    = ([⟨[], .stop, none⟩], []) ∧
    (⟨[], .stop, none⟩ : GenResult).usageMetadata ≠ some ⟨0, 0, 0⟩ := by
  refine ⟨rfl, ?_⟩
  intro h
  cases h

/-- C8 amended: the non-streaming Response Translator always propagates the
provider usage counters (with total = input + output); the streaming path
sets `usageMetadata` on the final response only when the terminal chunk
carries usage, mapping it the same way, and leaves it absent otherwise. -/
theorem usage_propagation :
    (∀ response : BedrockResponse,
      (convertFromBedrockResponse response).usageMetadata
        = some ⟨response.usage.input_tokens, response.usage.output_tokens,
            response.usage.input_tokens + response.usage.output_tokens⟩) ∧
    (∀ (acc : String) (cur : Option CurrentToolUse) (sr : String)
        (usage : Option BUsage), sr ≠ "" →
      (runStreamFrom false ⟨acc, cur⟩ [.messageStop (some sr) usage]).1.map
          (fun r => r.usageMetadata)
        = [usage.map mkUsageMetadata]) := by
  constructor
  · intro response
    rfl
  · intro acc cur sr usage hsr
    simp [runStreamFrom, stepChunk, truthy, hsr]

/-- Witness for C8's amended theorem at concrete usage values. -/
theorem usage_propagation_witness :
    (convertFromBedrockResponse ⟨[], some "end_turn", ⟨5, 7⟩⟩).usageMetadata
      = some ⟨5, 7, 12⟩ ∧
    (runStreamFrom false ⟨"", none⟩
      [.messageStop (some "end_turn") (some ⟨5, 7⟩)]).1.map
        (fun r => r.usageMetadata) = [some ⟨5, 7, 12⟩] :=
  ⟨usage_propagation.1 ⟨[], some "end_turn", ⟨5, 7⟩⟩,
   usage_propagation.2 "" none "end_turn" (some ⟨5, 7⟩) (by decide)⟩

/-- C9 (modelled from the spec, §4.5): a requestFn that always reports a
transient failure is attempted exactly `maxAttempts` times and then returns
a fatal error; a requestFn that first succeeds on attempt K ≤ maxAttempts is
attempted exactly K times; the delay sequence of exponential backoff with a
constant multiplier ≥ 1 is non-decreasing; and the attempt count is capped
by `maxAttempts`. -/
theorem retry_executor_bounds :
    (∀ (requestFn : Nat → AttemptResult) (maxAttempts : Nat),
      1 ≤ maxAttempts → (∀ k, requestFn k = .transient) →
      retryExec requestFn maxAttempts = .fatalAfter maxAttempts) ∧
    (∀ (requestFn : Nat → AttemptResult) (K maxAttempts : Nat),
      1 ≤ K → K ≤ maxAttempts →
      (∀ j, 1 ≤ j → j < K → requestFn j = .transient) →
      requestFn K = .success →
      retryExec requestFn maxAttempts = .ok K) ∧
    (∀ (baseDelay mult j k : Nat), 1 ≤ mult → j ≤ k →
      backoffDelay baseDelay mult j ≤ backoffDelay baseDelay mult k) ∧
    (∀ (requestFn : Nat → AttemptResult) (maxAttempts : Nat),
      (retryExec requestFn maxAttempts).attempts ≤ maxAttempts) := by
  refine ⟨?_, ?_, ?_, ?_⟩
  · intro requestFn maxAttempts hmax hall
    rcases Nat.exists_eq_add_of_le hmax with ⟨r, hr⟩
    rw [retryExec, hr, Nat.add_comm 1 r, retryExecAux_all_transient requestFn hall r 1]
    congr 1
    omega
  · intro requestFn K maxAttempts hK hKmax hbefore hsucc
    exact retryExecAux_success_at requestFn K maxAttempts 1 hK (by omega)
      hbefore hsucc
  · intro baseDelay mult j k hmult hjk
    exact Nat.mul_le_mul_left _ (Nat.pow_le_pow_right hmult hjk)
  · intro requestFn maxAttempts
    have := retryExecAux_attempts_le requestFn maxAttempts 1 (le_refl 1)
    rw [retryExec]
    omega

/-- Witness for C9 at concrete request functions and bounds. -/
theorem retry_executor_bounds_witness :
    retryExec (fun _ => .transient) 3 = .fatalAfter 3 ∧
    retryExec (fun k => if k < 2 then .transient else .success) 5 = .ok 2 ∧
    backoffDelay 100 2 1 ≤ backoffDelay 100 2 3 :=
  ⟨retry_executor_bounds.1 (fun _ => .transient) 3 (by decide) (fun _ => rfl),
   retry_executor_bounds.2.1 (fun k => if k < 2 then .transient else .success)
     2 5 (by decide) (by decide)
     (fun j h1 h2 => by
       have : j = 1 := by omega
       subst this
       rfl)
     rfl,
   retry_executor_bounds.2.2.1 100 2 1 3 (by decide) (by decide)⟩

/-- C10: for an assistant turn whose converted, validity-filtered content
contains at least one tool_use block, the message actually built keeps
exactly the blocks up to and including the last tool_use block, in their
original order, and removes every block positioned after it - including any
trailing text blocks. -/
theorem trailing_parts_after_last_tool_use_removed (parts : List GPart)
    (ids : Finset String)
    (h : ((convertPartsList parts (some ids)).filter (isValidBlock ids)).any
      (fun blk => blk.type = "tool_use") = true) :
    ∃ kept b dropped,
      (convertPartsList parts (some ids)).filter (isValidBlock ids)
        = kept ++ b :: dropped ∧
      b.type = "tool_use" ∧
      (∀ x ∈ dropped, x.type ≠ "tool_use") ∧
      messageFor "assistant" parts ids
        = some ⟨"assistant", collapseBlocks (kept ++ [b])⟩ := by
  set vc := (convertPartsList parts (some ids)).filter (isValidBlock ids) with hvc
  have hnotall : ¬ ∀ b ∈ vc, b.type ≠ "tool_use" := by
    rcases List.any_eq_true.mp h with ⟨blk, hmem, hblk⟩
    intro hall
    exact hall blk hmem (of_decide_eq_true hblk)
  have hnil : toolUseIdxsFrom 0 vc ≠ [] := by
    intro hn
    exact hnotall ((toolUseIdxsFrom_eq_nil _ _).mp hn)
  rcases hlast : (toolUseIdxsFrom 0 vc).getLast? with _ | l
  · rw [List.getLast?_eq_none_iff] at hlast
    exact absurd hlast hnil
  rcases lastIdx_split vc 0 l hlast with ⟨kept, b, dropped, heq, hlen, hb, hdrop⟩
  refine ⟨kept, b, dropped, heq, hb, hdrop, ?_⟩
  rw [messageFor]
  rcases hcv : convertParts parts (some ids) with s | bc
  · exfalso
    rw [convertParts] at hcv
    rcases collapseBlocks_str _ _ hcv with ⟨blk', hbs', hblk'⟩
    apply hnotall
    rw [hvc, hbs']
    intro x hx
    have hx' := List.mem_of_mem_filter hx
    simp at hx'
    rw [hx', hblk']
    decide
  · have hbc : bc = convertPartsList parts (some ids) := by
      rw [convertParts] at hcv
      exact collapseBlocks_blocks _ _ hcv
    dsimp only
    rw [hbc, ← hvc]
    have hlenpos : ¬ vc.length = 0 := by
      rw [heq]
      simp
    rw [if_neg hlenpos]
    rw [lastToolUseIndex_eq_from, hlast]
    dsimp only
    have htake : vc.take (l + 1) = kept ++ [b] := by
      rw [heq]
      have : l + 1 = kept.length + 1 := by omega
      rw [this, List.take_append]
      rfl
    rw [htake]
    rfl

/-- Witness for C10 at a concrete assistant turn with trailing text after
the tool call. -/
theorem trailing_parts_after_last_tool_use_removed_witness :
    ∃ kept b dropped,
      (convertPartsList [GPart.functionCall "f" (Json.obj []) (some "t1"),
          GPart.text "after"] (some (∅ : Finset String))).filter
        (isValidBlock ∅) = kept ++ b :: dropped ∧
      b.type = "tool_use" ∧
      (∀ x ∈ dropped, x.type ≠ "tool_use") ∧
      messageFor "assistant"
          [GPart.functionCall "f" (Json.obj []) (some "t1"), GPart.text "after"] ∅
        = some ⟨"assistant", collapseBlocks (kept ++ [b])⟩ :=
  trailing_parts_after_last_tool_use_removed
    [GPart.functionCall "f" (Json.obj []) (some "t1"), GPart.text "after"] ∅
    (by decide)

end Zilo
